import Mathlib

/-!
Verification of the constant-time string-comparison benchmark
(`stats.py`, the sample generator) and its plotting companion
(`plots.py`, the visualizer).

Python strings are modelled as `List Char`; Python `int` as `Int` (with
`Nat` for loop counters that are structurally non-negative); Python
`float` durations as `ℚ`.  Randomness (`random.choice`,
`random.randint`, the measured clock) is modelled by explicit streams
passed as parameters: a theorem's hypotheses state the contracts the
standard library guarantees for those sources (e.g. `randint(0, m)`
lies in `[0, m]`).
-/

/-! ### Comparison strategies (stats.py lines 63-105) -/

/-- Model of `equals_operator`: Python `a == b` on strings is
character-for-character value equality. -/
def equals_operator (a b : List Char) : Bool :=
  a == b

/-- Model of `andeq`: rejects unequal lengths, then accumulates
`result &= (a[i] == b[i])` over every index (Python `bool & bool`
is the non-short-circuit boolean AND, same value as `&&`). -/
def andeq (a b : List Char) : Bool :=
  if a.length ≠ b.length then false
  else (List.range a.length).foldl
    (fun result i => result && (a.getD i 'a' == b.getD i 'a')) true

/-- Model of `xor_bytes`: rejects unequal lengths, then ORs together the
XORs of the code points (`ord`, modelled by `Char.toNat`) and compares
the accumulator with zero. -/
def xor_bytes (a b : List Char) : Bool :=
  if a.length ≠ b.length then false
  else ((List.range a.length).foldl
    (fun result i => result ||| ((a.getD i 'a').toNat ^^^ (b.getD i 'a').toNat)) 0) == 0

/-- Model of a freshly constructed `hashlib.md5(...)` object.  CPython
hash objects define no `__eq__`, so `==` between them falls back to
object identity; `obj_id` models the identity of the allocation and
`content` the hashed bytes. -/
structure MD5Object where
  obj_id : Nat
  content : List Char
  deriving DecidableEq

/-- Python `==` between two hashlib hash objects: identity comparison
(no value-based `__eq__` exists on these objects). -/
def pyObjEq (x y : MD5Object) : Bool :=
  x.obj_id == y.obj_id

/-- Model of `hash_compare`: `md5(a.encode("UTF-8")) == md5(b.encode("UTF-8"))
and a == b`.  The two `md5(...)` calls allocate two distinct objects
(distinct identities, here ids 0 and 1), and `==` compares them by
identity, so the first conjunct is always `False` and Python's
short-circuit `and` returns it. -/
def hash_compare (a b : List Char) : Bool :=
  let ha : MD5Object := { obj_id := 0, content := a }
  let hb : MD5Object := { obj_id := 1, content := b }
  pyObjEq ha hb && (a == b)

/-- Model of `salted_hash_compare`, parameterised by the `hmac` digest
function (salt and message to digest bytes): compares the two keyed
digests by value (`bytes == bytes` is value equality) and then the
original strings. -/
def salted_hash_compare (hmac : List Nat → List Char → List Nat)
    (salt : List Nat) (a b : List Char) : Bool :=
  (hmac salt a == hmac salt b) && (a == b)

/-- Keys of the `FUNCTIONS` registry, in insertion order.
`compare_digest` is present because `from hmac import compare_digest`
succeeds on any modern interpreter. -/
def function_names : List String :=
  ["equals_operator", "andeq", "xor_bytes", "hash_compare",
   "salted_hash_compare", "compare_digest"]

/-! ### Difference-controlled pair generation (stats.py lines 57-60 and 202-216) -/

/-- Model of `random_string(n)`: n successive results of
`random.choice(string.ascii_letters)`, the choices being supplied by
the stream `c`. -/
def random_chars (c : Nat → Char) (n : Nat) : List Char :=
  (List.range n).map c

/-- Model of the regeneration loop
`while b[d] == a[d]: b = b with position d replaced by a fresh letter`.
`repl` is the finite portion of the random-letter stream the run gets
to consume; `none` models the (probability-zero) case where every
available draw still collides, i.e. the Python loop not terminating
within the modelled randomness. -/
def regen_loop (a b : List Char) (d : Nat) : List Char → Option (List Char)
  | [] => if b.getD d 'a' == a.getD d 'a' then none else some b
  | c :: rest =>
      if b.getD d 'a' == a.getD d 'a' then regen_loop a (b.set d c) d rest
      else some b

/-- Model of one pair generation (stats.py lines 203-211):
`a = random_string(length)`, `b = a[:d] + random_string(length - d)`,
then regenerate position `d` of `b` until it differs from `a[d]`. -/
def generate_pair (L dn : Nat) (aC sC : Nat → Char) (repl : List Char) :
    Option (List Char × List Char) :=
  let a := random_chars aC L
  let b0 := a.take dn ++ random_chars sC (L - dn)
  match regen_loop a b0 dn repl with
  | none => none
  | some b => some (a, b)

/-! ### Calibration (stats.py lines 165-184) -/

/-- Model of the calibration loop: starting from `potential_loops`,
measure the duration of that many consecutive calls (`measure n` is the
`t1 - t0` observed for count `n`), stop as soon as it reaches
`min_time`, otherwise double and retry.  `fuel` bounds the modelled
number of doublings; `none` models the loop not terminating within it. -/
def calibrate (measure : Nat → ℚ) (min_time : ℚ) : Nat → Nat → Option Nat
  | 0, _ => none
  | fuel + 1, potential_loops =>
      if min_time ≤ measure potential_loops then some potential_loops
      else calibrate measure min_time fuel (2 * potential_loops)

/-- Python-level failures of `main` that the model distinguishes.
`hang` stands for a loop that never terminates within the modelled
randomness or fuel. -/
inductive PyError
  | configValueError
  | randintValueError
  | keyError (name : String)
  | zeroDivisionError
  | assertionError
  | indexError
  | hang
  deriving DecidableEq

/-- Model of the `loops_config` construction (stats.py lines 165-184):
for each requested name, either take the fixed `--loops` value, or look
the name up in `FUNCTIONS` (a `KeyError` on an unknown name) and
calibrate.  The warm-up calls have no observable effect and are not
modelled. -/
def build_loops_config (measure_cal : String → Nat → ℚ) (cal_fuel : Nat)
    (loops : Option Int) (min_time : ℚ) :
    List String → Except PyError (List (String × Int))
  | [] => .ok []
  | name :: rest =>
      match loops with
      | some l =>
          match build_loops_config measure_cal cal_fuel (some l) min_time rest with
          | .error e => .error e
          | .ok cfg => .ok ((name, l) :: cfg)
      | none =>
          if name ∈ function_names then
            match calibrate (measure_cal name) min_time cal_fuel 1 with
            | none => .error .hang
            | some n =>
                match build_loops_config measure_cal cal_fuel none min_time rest with
                | .error e => .error e
                | .ok cfg => .ok ((name, (n : Int)) :: cfg)
          else .error (.keyError name)

/-! ### The sample-generation driver (stats.py `main`) -/

/-- One CSV data row as written by `writer.writerow([name, length,
first_difference, elapsed])`. -/
structure Row where
  function : String
  password_length : Int
  first_difference : Int
  time : ℚ
  deriving DecidableEq

/-- Cells of the header row written at stats.py lines 192-193. -/
def csv_header : List String :=
  ["function", "password length", "first difference", "time"]

/-- One line of the output file: either the header record or a data
record. -/
inductive CsvRecord
  | headerRec (cells : List String)
  | dataRec (row : Row)
  deriving DecidableEq

/-- Outcome of a run of `main`: the final `loops_config`, the lines
written to the output file before the run ended, and the error that
terminated it (`none` on normal completion). -/
structure RunResult where
  loops_config : List (String × Int)
  lines : List CsvRecord
  outcome : Option PyError
  deriving DecidableEq

/-- Model of one iteration of the sampling loop (stats.py lines
198-225) for a strategy whose calibrated loop count is `loops`:
`randint(0, mdi)` (a `ValueError` when `mdi < 0`), pair generation, the
four-part `assert`, and the timed measurement `raw` divided by `loops`
(a `ZeroDivisionError` when `loops == 0`).  `d` is the value returned
by `randint`; indexing `a[d]` out of range is an `IndexError`. -/
def run_sample (name : String) (length mdi d : Int)
    (aC sC : Nat → Char) (repl : List Char) (raw : ℚ) (loops : Int) :
    Except PyError Row :=
  if mdi < 0 then .error .randintValueError
  else if d.toNat < length.toNat then
    match generate_pair length.toNat d.toNat aC sC repl with
    | none => .error .hang
    | some (a, b) =>
        if (a.length == b.length) && !(a == b)
            && (a.take d.toNat == b.take d.toNat)
            && !(a.getD d.toNat 'a' == b.getD d.toNat 'a') then
          if loops = 0 then .error .zeroDivisionError
          else .ok { function := name, password_length := length,
                     first_difference := d, time := raw / (loops : ℚ) }
        else .error .assertionError
  else .error .indexError

/-- Model of the inner loop `for i in range(1, num_values + 1)` for one
strategy: `i` is the running sample index, `cnt` the number of samples
still to produce.  Rows produced before a failure are kept (they were
already written to the file). -/
def bench_samples (name : String) (length mdi : Int)
    (d_of : Nat → Int) (aC sC : Nat → Nat → Char) (repl : Nat → List Char)
    (raw : Nat → ℚ) (loops : Int) : Nat → Nat → List Row × Option PyError
  | _, 0 => ([], none)
  | i, cnt + 1 =>
      match run_sample name length mdi (d_of i) (aC i) (sC i) (repl i) (raw i) loops with
      | .error e => ([], some e)
      | .ok row =>
          let r := bench_samples name length mdi d_of aC sC repl raw loops (i + 1) cnt
          (row :: r.1, r.2)

/-- Model of the outer loop `for name in sorted(possible_functions)`
(stats.py lines 194-225): look the strategy up in `FUNCTIONS`
(`KeyError` on an unknown name, reached on this path only when
`--loops` was given), fetch its loop count from `loops_config`, and run
the samples. -/
def bench_all (length mdi : Int)
    (d_of : String → Nat → Int) (aC sC : String → Nat → Nat → Char)
    (repl : String → Nat → List Char) (raw : String → Nat → ℚ)
    (cfg : List (String × Int)) (num_values : Nat) :
    List String → List Row × Option PyError
  | [] => ([], none)
  | name :: rest =>
      if name ∈ function_names then
        match List.lookup name cfg with
        | none => ([], some (.keyError name))
        | some loops =>
            let r := bench_samples name length mdi (d_of name) (aC name) (sC name)
              (repl name) (raw name) loops 1 num_values
            match r.2 with
            | some e => (r.1, some e)
            | none =>
                let rest' := bench_all length mdi d_of aC sC repl raw cfg num_values rest
                (r.1 ++ rest'.1, rest'.2)
      else ([], some (.keyError name))

/-- Command-line configuration of the generator (stats.py lines
127-163).  The output path and the status-print cadence have no effect
on the modelled behaviour and are omitted. -/
structure Args where
  length : Int
  max_difference_index : Option Int
  num_values : Int
  warmups : Nat
  loops : Option Int
  min_time : ℚ
  functions : List String

/-- The effective maximum first-difference index (stats.py lines
154-156): the requested value, or `length - 1` when omitted. -/
def effective_mdi (args : Args) : Int :=
  match args.max_difference_index with
  | none => args.length - 1
  | some m => m

/-- Python's `<` on strings is lexicographic on code points; modelled
structurally on the underlying character lists so that it computes. -/
def charListLt : List Char → List Char → Bool
  | [], [] => false
  | [], _ :: _ => true
  | _ :: _, [] => false
  | a :: as, b :: bs =>
      if a.toNat < b.toNat then true
      else if b.toNat < a.toNat then false
      else charListLt as bs

/-- The `<=` ordering `sorted` uses on strategy names. -/
def strLe (a b : String) : Bool :=
  !(charListLt b.data a.data)

/-- Model of `sorted(possible_functions)`: a stable sort by `strLe`. -/
def sorted_names (names : List String) : List String :=
  List.insertionSort (fun a b => strLe a b = true) names

/-- Model of `main` (stats.py lines 123-225) after argument parsing.
Steps, in source order: default and check `max_difference_index`
(`ValueError` when it is `>= length`, before anything else); build
`loops_config` (calibrating when no `--loops` was given); the status
print computing `num_values // max_difference_index`
(`ZeroDivisionError` when the effective index is 0, still before the
output file is opened); then open the file, write the header row, and
benchmark the strategies in sorted order. -/
def run (measure_cal : String → Nat → ℚ) (cal_fuel : Nat)
    (d_of : String → Nat → Int) (aC sC : String → Nat → Nat → Char)
    (repl : String → Nat → List Char) (raw : String → Nat → ℚ)
    (args : Args) : RunResult :=
  let mdi := effective_mdi args
  if args.length ≤ mdi then
    { loops_config := [], lines := [], outcome := some .configValueError }
  else
    match build_loops_config measure_cal cal_fuel args.loops args.min_time args.functions with
    | .error e => { loops_config := [], lines := [], outcome := some e }
    | .ok cfg =>
        if mdi = 0 then
          { loops_config := cfg, lines := [], outcome := some .zeroDivisionError }
        else
          let r := bench_all args.length mdi d_of aC sC repl raw cfg
            args.num_values.toNat (sorted_names args.functions)
          { loops_config := cfg,
            lines := CsvRecord.headerRec csv_header :: r.1.map CsvRecord.dataRec,
            outcome := r.2 }

/-! ### The visualizer (plots.py) -/

/-- Result of the data preparation in plots.py `main`: the rescaled
time column and the tick-label list handed to `set_xticklabels`. -/
structure PlotData where
  times_us : List ℚ
  x_ticks : List (Option Int)
  deriving DecidableEq

/-- Model of plots.py lines 18-30 and 43: `df.time *= 1000000`;
`ticks = df["first difference"].unique()` (first occurrences, in
order of appearance) then sorted ascending; `divisor = max(1,
len(ticks) // 8)`; a tick value `i` keeps its label iff
`i % divisor == 0`. -/
def plots_main (first_diffs : List Int) (times : List ℚ) : PlotData :=
  let ticks := List.insertionSort (fun a b : Int => a ≤ b) first_diffs.dedup
  let divisor : Int := (max 1 (ticks.length / 8) : Nat)
  { times_us := times.map (fun t => t * 1000000),
    x_ticks := ticks.map (fun i => if i % divisor = 0 then some i else none) }

/-! ### Helper lemmas about list indexing -/

lemma getD_eq_getElem (xs : List Char) (i : Nat) (h : i < xs.length) :
    xs.getD i 'a' = xs[i] := by
  simp [List.getD, List.getElem?_eq_getElem h]

lemma getD_set_ne (l : List Char) (i j : Nat) (c : Char) (h : i ≠ j) :
    (l.set i c).getD j 'a' = l.getD j 'a' := by
  simp [List.getD, List.getElem?_set_ne h]

lemma getD_append_left (xs ys : List Char) (i : Nat) (h : i < xs.length) :
    (xs ++ ys).getD i 'a' = xs.getD i 'a' := by
  rw [getD_eq_getElem _ _ (by simp; omega), getD_eq_getElem _ _ h]
  simp [List.getElem_append, h]

lemma getD_take (xs : List Char) (d i : Nat) (hi : i < d) (hx : i < xs.length) :
    (xs.take d).getD i 'a' = xs.getD i 'a' := by
  rw [getD_eq_getElem _ _ (by simp; omega), getD_eq_getElem _ _ hx]
  simp [List.getElem_take]

lemma take_eq_of_getD_eq (xs ys : List Char) (d : Nat) (hx : d ≤ xs.length)
    (hy : d ≤ ys.length) (h : ∀ i, i < d → xs.getD i 'a' = ys.getD i 'a') :
    xs.take d = ys.take d := by
  apply List.ext_getElem
  · simp [Nat.min_eq_left hx, Nat.min_eq_left hy]
  · intro i h1 h2
    have hi : i < d := by simpa [Nat.min_eq_left hx] using h1
    have hxi : i < xs.length := lt_of_lt_of_le hi hx
    have hyi : i < ys.length := lt_of_lt_of_le hi hy
    have hD := h i hi
    rw [getD_eq_getElem _ _ hxi, getD_eq_getElem _ _ hyi] at hD
    simpa [List.getElem_take] using hD

lemma random_chars_length (c : Nat → Char) (n : Nat) : (random_chars c n).length = n := by
  simp [random_chars]

/-! ### The regeneration loop -/

lemma regen_loop_spec (a : List Char) (d : Nat) :
    ∀ (repl b b' : List Char), regen_loop a b d repl = some b' →
      b'.length = b.length ∧ b'.getD d 'a' ≠ a.getD d 'a' ∧
      ∀ i, i ≠ d → b'.getD i 'a' = b.getD i 'a' := by
  intro repl
  induction repl with
  | nil =>
      intro b b' h
      simp only [regen_loop] at h
      split at h
      · exact absurd h (by simp)
      · next hc =>
          cases h
          exact ⟨rfl, by simpa using hc, fun i _ => rfl⟩
  | cons c rest ih =>
      intro b b' h
      simp only [regen_loop] at h
      split at h
      · obtain ⟨h1, h2, h3⟩ := ih (b.set d c) b' h
        refine ⟨by simpa using h1, h2, fun i hi => ?_⟩
        rw [h3 i hi, getD_set_ne _ _ _ _ (Ne.symm hi)]
      · next hc =>
          cases h
          exact ⟨rfl, by simpa using hc, fun i _ => rfl⟩

/-! ### Properties of one generated pair -/

lemma generate_pair_spec (L dn : Nat) (hdL : dn < L) (aC sC : Nat → Char)
    (repl : List Char) (a b : List Char)
    (h : generate_pair L dn aC sC repl = some (a, b)) :
    a.length = L ∧ b.length = L ∧ a ≠ b ∧ a.take dn = b.take dn ∧
    a.getD dn 'a' ≠ b.getD dn 'a' ∧
    ∀ i, i ≠ dn → b.getD i 'a' = (a.take dn ++ random_chars sC (L - dn)).getD i 'a' := by
  simp only [generate_pair] at h
  split at h
  · exact absurd h (by simp)
  · next b1 hreg =>
      rw [Option.some_inj] at h
      have ha : random_chars aC L = a := congrArg Prod.fst h
      have hbb : b1 = b := congrArg Prod.snd h
      rw [ha, hbb] at hreg
      have haL : a.length = L := by rw [← ha]; exact random_chars_length aC L
      have hdLe : dn ≤ a.length := by omega
      have htakeL : (a.take dn).length = dn := by
        simp [Nat.min_eq_left hdLe]
      have hb0L : (a.take dn ++ random_chars sC (L - dn)).length = L := by
        simp [htakeL, random_chars_length]
        omega
      obtain ⟨h1, h2, h3⟩ := regen_loop_spec a dn repl _ b hreg
      have hbL : b.length = L := by rw [h1, hb0L]
      have hlow : ∀ i, i < dn → b.getD i 'a' = a.getD i 'a' := by
        intro i hi
        rw [h3 i (Nat.ne_of_lt hi), getD_append_left _ _ _ (by omega),
          getD_take a dn i hi (by omega)]
      refine ⟨haL, hbL, ?_, ?_, fun hda => h2 (hda.symm), h3⟩
      · intro hab
        exact h2 (by rw [← hab])
      · exact take_eq_of_getD_eq a b dn hdLe (by omega)
          (fun i hi => (hlow i hi).symm)

/-- C2: for every requested first-difference index `d ≤
max_difference_index` and configured length `L` with
`max_difference_index < L`, a successfully generated pair `(a, b)` has
`len a = len b = L`, `a ≠ b`, an identical prefix of length `d`, a
difference at index `d`, and the regeneration step changed no position
of the initial `b` other than index `d`. -/
theorem generated_pair_properties (L d max_difference_index : Nat)
    (hd : d ≤ max_difference_index) (hmax : max_difference_index < L)
    (aC sC : Nat → Char) (repl : List Char) (a b : List Char)
    (h : generate_pair L d aC sC repl = some (a, b)) :
    a.length = L ∧ b.length = L ∧ a ≠ b ∧ a.take d = b.take d ∧
    a.getD d 'a' ≠ b.getD d 'a' ∧
    ∀ i, i ≠ d → b.getD i 'a' = (a.take d ++ random_chars sC (L - d)).getD i 'a' :=
  generate_pair_spec L d (lt_of_le_of_lt hd hmax) aC sC repl a b h

/-- Witness for C2 at a concrete input that exercises the regeneration
loop: the initially generated character at the difference index
coincides and is regenerated (twice) until it differs. -/
theorem generated_pair_properties_witness :
    generate_pair 2 1 (fun i => if i = 0 then 'a' else 'b') (fun _ => 'b') ['b', 'c']
      = some (['a', 'b'], ['a', 'c']) ∧
    (['a', 'b'] : List Char) ≠ ['a', 'c'] ∧
    (['a', 'b'] : List Char).take 1 = (['a', 'c'] : List Char).take 1 ∧
    (['a', 'b'] : List Char).getD 1 'a' ≠ (['a', 'c'] : List Char).getD 1 'a' := by
  obtain ⟨-, -, hne, htake, hgetD, -⟩ :=
    generated_pair_properties 2 1 1 (le_refl 1) (by decide)
      (fun i => if i = 0 then 'a' else 'b') (fun _ => 'b') ['b', 'c']
      ['a', 'b'] ['a', 'c'] (by decide)
  exact ⟨by decide, hne, htake, hgetD⟩

/-! ### Calibration lemmas -/

lemma calibrate_spec (measure : Nat → ℚ) (T : ℚ) :
    ∀ (fuel n m : Nat), 0 < n → calibrate measure T fuel n = some m →
      (∃ j, m = n * 2 ^ j) ∧ T ≤ measure m ∧ (n < m → measure (m / 2) < T) := by
  intro fuel
  induction fuel with
  | zero => intro n m _ h; simp [calibrate] at h
  | succ fuel ih =>
      intro n m hn h
      simp only [calibrate] at h
      split at h
      · next hT =>
          cases h
          exact ⟨⟨0, by ring⟩, hT, fun hlt => absurd hlt (lt_irrefl _)⟩
      · next hT =>
          obtain ⟨⟨j, hj⟩, hTm, hhalf⟩ := ih (2 * n) m (by omega) h
          have h2n : 2 * n ≤ m := by
            rw [hj]
            exact Nat.le_mul_of_pos_right _ (Nat.pos_pow_of_pos j (by omega))
          refine ⟨⟨j + 1, by rw [hj]; ring⟩, hTm, fun _ => ?_⟩
          by_cases h2 : 2 * n < m
          · exact hhalf h2
          · have hm : m = 2 * n := le_antisymm (not_lt.mp h2) h2n
            rw [hm, Nat.mul_div_cancel_left n (by omega)]
            exact not_le.mp hT

lemma build_loops_config_calibrated (measure_cal : String → Nat → ℚ) (cal_fuel : Nat)
    (min_time : ℚ) :
    ∀ (names : List String) (cfg : List (String × Int)),
      build_loops_config measure_cal cal_fuel none min_time names = .ok cfg →
      ∀ name ∈ names, ∃ n : Nat, List.lookup name cfg = some ((n : Nat) : Int) ∧
        calibrate (measure_cal name) min_time cal_fuel 1 = some n := by
  intro names
  induction names with
  | nil => intro cfg _ name hmem; simp at hmem
  | cons head rest ih =>
      intro cfg h name hmem
      simp only [build_loops_config] at h
      split at h
      · next hhead =>
          split at h
          · exact absurd h (by simp)
          · next n hcal =>
              split at h
              · exact absurd h (by simp)
              · next cfg' hrec =>
                  rw [Except.ok.injEq] at h
                  subst h
                  rcases List.mem_cons.mp hmem with hn | hn
                  · subst hn
                    exact ⟨n, by simp [List.lookup], hcal⟩
                  · obtain ⟨m, hm1, hm2⟩ := ih cfg' hrec name hn
                    by_cases hne : name = head
                    · subst hne
                      exact ⟨n, by simp [List.lookup], hcal⟩
                    · refine ⟨m, ?_, hm2⟩
                      simpa [List.lookup, beq_eq_false_iff_ne.mpr hne] using hm1
      · exact absurd h (by simp)

lemma bench_samples_rows (name : String) (length mdi : Int) (d_of : Nat → Int)
    (aC sC : Nat → Nat → Char) (repl : Nat → List Char) (raw : Nat → ℚ) (loops : Int) :
    ∀ (cnt i : Nat) (row : Row),
      row ∈ (bench_samples name length mdi d_of aC sC repl raw loops i cnt).1 →
      row.function = name ∧ ∃ j, row.time = raw j / ((loops : Int) : ℚ) := by
  intro cnt
  induction cnt with
  | zero => intro i row hrow; simp [bench_samples] at hrow
  | succ cnt ih =>
      intro i row hrow
      simp only [bench_samples] at hrow
      cases hs : run_sample name length mdi (d_of i) (aC i) (sC i) (repl i) (raw i) loops with
      | error e => rw [hs] at hrow; simp at hrow
      | ok r =>
          rw [hs] at hrow
          simp only [List.mem_cons] at hrow
          rcases hrow with rfl | hrow
          · have hshape : row.function = name ∧ row.time = raw i / ((loops : Int) : ℚ) := by
              simp only [run_sample] at hs
              split at hs
              · exact absurd hs (by simp)
              · split at hs
                · split at hs
                  · exact absurd hs (by simp)
                  · split at hs
                    · split at hs
                      · exact absurd hs (by simp)
                      · rw [Except.ok.injEq] at hs
                        subst hs
                        exact ⟨rfl, rfl⟩
                    · exact absurd hs (by simp)
                · exact absurd hs (by simp)
            exact ⟨hshape.1, i, hshape.2⟩
          · exact ih (i + 1) row hrow

/-- C3: when no fixed loop count is supplied, the loop count `n` the
calibration records for a strategy is a power of two, the measured
duration of `n` consecutive calls reached the minimum duration, and
(when `n > 1`) the measured duration of `n / 2` calls fell short of it
at calibration time.  The calibration result is computed once per
strategy (one binding in `loops_config`) and every row a sampling loop
run with that count produces carries a per-call average, i.e. a
measured duration divided by that same `n`. -/
theorem calibration_properties (measure_cal : String → Nat → ℚ) (cal_fuel : Nat)
    (min_time : ℚ) (names : List String) (cfg : List (String × Int))
    (hcfg : build_loops_config measure_cal cal_fuel none min_time names = .ok cfg)
    (name : String) (hmem : name ∈ names) (n : Nat)
    (hlook : List.lookup name cfg = some ((n : Nat) : Int)) :
    (∃ k, n = 2 ^ k) ∧ min_time ≤ measure_cal name n ∧
    (1 < n → measure_cal name (n / 2) < min_time) ∧
    ∀ (length mdi : Int) (d_of : Nat → Int) (aC sC : Nat → Nat → Char)
      (repl : Nat → List Char) (raw : Nat → ℚ) (cnt i : Nat) (row : Row),
      row ∈ (bench_samples name length mdi d_of aC sC repl raw ((n : Nat) : Int) i cnt).1 →
      ∃ j, row.time = raw j / ((n : Nat) : ℚ) := by
  obtain ⟨m, hm1, hm2⟩ :=
    build_loops_config_calibrated measure_cal cal_fuel min_time names cfg hcfg name hmem
  have hnm : n = m := by
    rw [hlook] at hm1
    exact_mod_cast (Option.some_inj.mp hm1.symm).symm
  subst hnm
  obtain ⟨⟨j, hj⟩, hT, hhalf⟩ :=
    calibrate_spec (measure_cal name) min_time cal_fuel 1 n one_pos hm2
  refine ⟨⟨j, by simpa using hj⟩, hT, hhalf, ?_⟩
  intro length mdi d_of aC sC repl raw cnt i row hrow
  obtain ⟨-, j', hj'⟩ :=
    bench_samples_rows name length mdi d_of aC sC repl raw ((n : Nat) : Int) cnt i row hrow
  exact ⟨j', by push_cast at hj' ⊢; exact hj'⟩

/-- Witness for C3: with a modelled clock reading `k` time units for
`k` consecutive calls and a threshold of 5 units, calibration settles
on the loop count 8 = 2^3 (8 units ≥ 5, while 4 units fell short). -/
theorem calibration_properties_witness :
    build_loops_config (fun _ k => (k : ℚ)) 10 none 5 ["andeq"] = .ok [("andeq", 8)] ∧
    (5 : ℚ) ≤ ((8 : Nat) : ℚ) ∧ (((8 / 2 : Nat) : ℚ) < 5) := by
  have h := calibration_properties (fun _ k => (k : ℚ)) 10 5 ["andeq"] [("andeq", 8)]
    rfl "andeq" (by decide) 8 (by decide)
  exact ⟨rfl, h.2.1, h.2.2.1 (by decide)⟩

/-! ### Driver lemmas: configuration errors and unknown names -/

lemma build_loops_config_fixed (measure_cal : String → Nat → ℚ) (cal_fuel : Nat)
    (l : Int) (min_time : ℚ) :
    ∀ names : List String,
      build_loops_config measure_cal cal_fuel (some l) min_time names
        = .ok (names.map fun name => (name, l)) := by
  intro names
  induction names with
  | nil => rfl
  | cons head rest ih => simp [build_loops_config, ih]

lemma build_unknown_fails (measure_cal : String → Nat → ℚ) (cal_fuel : Nat) (min_time : ℚ) :
    ∀ names : List String, (∃ b ∈ names, b ∉ function_names) →
      (∀ n ∈ names, n ∈ function_names →
        (calibrate (measure_cal n) min_time cal_fuel 1).isSome) →
      ∃ bad, bad ∉ function_names ∧
        build_loops_config measure_cal cal_fuel none min_time names
          = .error (.keyError bad) := by
  intro names
  induction names with
  | nil => rintro ⟨b, hb, -⟩; simp at hb
  | cons head rest ih =>
      rintro ⟨b, hb, hbu⟩ hcal
      by_cases hh : head ∈ function_names
      · obtain ⟨n, hn⟩ := Option.isSome_iff_exists.mp
          (hcal head (List.mem_cons_self head rest) hh)
        have hbrest : b ∈ rest := by
          rcases List.mem_cons.mp hb with rfl | hr
          · exact absurd hh hbu
          · exact hr
        obtain ⟨bad, hbad, hbuild⟩ := ih ⟨b, hbrest, hbu⟩
          (fun m hm hmf => hcal m (List.mem_cons_of_mem head hm) hmf)
        exact ⟨bad, hbad, by simp [build_loops_config, hh, hn, hbuild]⟩
      · exact ⟨head, hh, by simp [build_loops_config, hh]⟩


lemma build_error_kind (measure_cal : String → Nat → ℚ) (cal_fuel : Nat)
    (loops : Option Int) (min_time : ℚ) :
    ∀ (names : List String) (e : PyError),
      build_loops_config measure_cal cal_fuel loops min_time names = .error e →
      e = .hang ∨ ∃ nm, e = .keyError nm := by
  intro names
  induction names with
  | nil => intro e h; simp [build_loops_config] at h
  | cons head rest ih =>
      intro e h
      cases loops with
      | some l =>
          simp only [build_loops_config] at h
          split at h
          · next e' hrec =>
              rw [Except.error.injEq] at h
              subst h
              exact ih e' hrec
          · exact absurd h (by simp)
      | none =>
          simp only [build_loops_config] at h
          split at h
          · split at h
            · rw [Except.error.injEq] at h
              exact Or.inl h.symm
            · split at h
              · next e' hrec =>
                  rw [Except.error.injEq] at h
                  subst h
                  exact ih e' hrec
              · exact absurd h (by simp)
          · next hh =>
              rw [Except.error.injEq] at h
              exact Or.inr ⟨head, h.symm⟩

lemma run_sample_error_kind (name : String) (length mdi d : Int) (aC sC : Nat → Char)
    (repl : List Char) (raw : ℚ) (loops : Int) (e : PyError)
    (h : run_sample name length mdi d aC sC repl raw loops = .error e) :
    e ≠ .configValueError := by
  simp only [run_sample] at h
  split at h
  · rw [Except.error.injEq] at h; subst h; simp
  · split at h
    · split at h
      · rw [Except.error.injEq] at h; subst h; simp
      · split at h
        · split at h
          · rw [Except.error.injEq] at h; subst h; simp
          · exact absurd h (by simp)
        · rw [Except.error.injEq] at h; subst h; simp
    · rw [Except.error.injEq] at h; subst h; simp

lemma bench_samples_error_kind (name : String) (length mdi : Int) (d_of : Nat → Int)
    (aC sC : Nat → Nat → Char) (repl : Nat → List Char) (raw : Nat → ℚ) (loops : Int) :
    ∀ (cnt i : Nat) (e : PyError),
      (bench_samples name length mdi d_of aC sC repl raw loops i cnt).2 = some e →
      e ≠ .configValueError := by
  intro cnt
  induction cnt with
  | zero => intro i e h; simp [bench_samples] at h
  | succ cnt ih =>
      intro i e h
      simp only [bench_samples] at h
      cases hs : run_sample name length mdi (d_of i) (aC i) (sC i) (repl i) (raw i) loops with
      | error e1 =>
          rw [hs] at h
          simp only at h
          rw [Option.some_inj] at h
          subst h
          exact run_sample_error_kind name length mdi (d_of i) (aC i) (sC i) (repl i)
            (raw i) loops e1 hs
      | ok r =>
          rw [hs] at h
          simp only at h
          exact ih (i + 1) e h

lemma bench_all_error_kind (length mdi : Int) (d_of : String → Nat → Int)
    (aC sC : String → Nat → Nat → Char) (repl : String → Nat → List Char)
    (raw : String → Nat → ℚ) (cfg : List (String × Int)) (num_values : Nat) :
    ∀ (names : List String) (e : PyError),
      (bench_all length mdi d_of aC sC repl raw cfg num_values names).2 = some e →
      e ≠ .configValueError := by
  intro names
  induction names with
  | nil => intro e h; simp [bench_all] at h
  | cons head rest ih =>
      intro e h
      simp only [bench_all] at h
      split at h
      · split at h
        · rw [Option.some_inj] at h; subst h; simp
        · next loops hlk =>
            cases hs : (bench_samples head length mdi (d_of head) (aC head) (sC head)
                (repl head) (raw head) loops 1 num_values).2 with
            | some e1 =>
                rw [hs] at h
                simp only at h
                rw [Option.some_inj] at h
                subst h
                exact bench_samples_error_kind head length mdi (d_of head) (aC head)
                  (sC head) (repl head) (raw head) loops num_values 1 e1 hs
            | none =>
                rw [hs] at h
                simp only at h
                exact ih e h
      · rw [Option.some_inj] at h; subst h; simp

/-- C5: when the requested maximum first-difference index is at least
the configured length, the run aborts with the configuration
`ValueError` before any calibration (empty `loops_config`) and before
any output-file write (no lines); when the index is omitted it defaults
to `length - 1`, and the run never aborts with that configuration
error. -/
theorem config_check_fails_fast (measure_cal : String → Nat → ℚ) (cal_fuel : Nat)
    (d_of : String → Nat → Int) (aC sC : String → Nat → Nat → Char)
    (repl : String → Nat → List Char) (raw : String → Nat → ℚ) (args : Args) :
    (args.length ≤ effective_mdi args →
      run measure_cal cal_fuel d_of aC sC repl raw args
        = { loops_config := [], lines := [], outcome := some .configValueError }) ∧
    (args.max_difference_index = none →
      (run measure_cal cal_fuel d_of aC sC repl raw args).outcome
        ≠ some .configValueError) := by
  constructor
  · intro hle
    simp [run, hle]
  · intro hnone
    have hmdi : effective_mdi args = args.length - 1 := by
      simp [effective_mdi, hnone]
    have hlt : ¬ args.length ≤ effective_mdi args := by
      rw [hmdi]; omega
    simp only [run, if_neg hlt]
    cases hb : build_loops_config measure_cal cal_fuel args.loops args.min_time
        args.functions with
    | error e =>
        simp only []
        intro hc
        rw [Option.some_inj] at hc
        rcases build_error_kind measure_cal cal_fuel args.loops args.min_time
          args.functions e hb with h1 | ⟨nm, h2⟩
        · subst hc; simp at h1
        · subst hc; simp at h2
    | ok cfg =>
        simp only []
        split
        · simp
        · intro hc
          exact bench_all_error_kind args.length (effective_mdi args) d_of aC sC repl raw
            cfg args.num_values.toNat (sorted_names args.functions) _ hc rfl

/-- Witness for C5: a requested index 5 with length 3 aborts with the
configuration error and writes nothing; the defaulted index never
produces that error. -/
theorem config_check_fails_fast_witness :
    run (fun _ k => (k : ℚ)) 10 (fun _ _ => 0) (fun _ _ _ => 'a') (fun _ _ _ => 'a')
      (fun _ _ => []) (fun _ _ => 0)
      { length := 3, max_difference_index := some 5, num_values := 1, warmups := 10,
        loops := some 1, min_time := 1, functions := ["andeq"] }
      = { loops_config := [], lines := [], outcome := some .configValueError } ∧
    (run (fun _ k => (k : ℚ)) 10 (fun _ _ => 0) (fun _ _ _ => 'a') (fun _ _ _ => 'a')
      (fun _ _ => []) (fun _ _ => 0)
      { length := 3, max_difference_index := none, num_values := 1, warmups := 10,
        loops := some 1, min_time := 1, functions := ["andeq"] }).outcome
      ≠ some .configValueError := by
  constructor
  · exact (config_check_fails_fast (fun _ k => (k : ℚ)) 10 (fun _ _ => 0)
      (fun _ _ _ => 'a') (fun _ _ _ => 'a') (fun _ _ => []) (fun _ _ => 0)
      { length := 3, max_difference_index := some 5, num_values := 1, warmups := 10,
        loops := some 1, min_time := 1, functions := ["andeq"] }).1 (by decide)
  · exact (config_check_fails_fast (fun _ k => (k : ℚ)) 10 (fun _ _ => 0)
      (fun _ _ _ => 'a') (fun _ _ _ => 'a') (fun _ _ => []) (fun _ _ => 0)
      { length := 3, max_difference_index := none, num_values := 1, warmups := 10,
        loops := some 1, min_time := 1, functions := ["andeq"] }).2 rfl

/-- C9: whenever the effective maximum first-difference index is 0 (as
with the default index and length 1) and the configuration check
passes, the status print `num_values // max_difference_index` raises a
`ZeroDivisionError` after calibration has completed (the final
`loops_config` is in place) and before the output file is opened or
any row is written (no lines). -/
theorem status_print_division_by_zero (measure_cal : String → Nat → ℚ) (cal_fuel : Nat)
    (d_of : String → Nat → Int) (aC sC : String → Nat → Nat → Char)
    (repl : String → Nat → List Char) (raw : String → Nat → ℚ) (args : Args)
    (cfg : List (String × Int)) (hmdi : effective_mdi args = 0)
    (hlen : 0 < args.length)
    (hcfg : build_loops_config measure_cal cal_fuel args.loops args.min_time
      args.functions = .ok cfg) :
    run measure_cal cal_fuel d_of aC sC repl raw args
      = { loops_config := cfg, lines := [], outcome := some .zeroDivisionError } := by
  have hlt : ¬ args.length ≤ effective_mdi args := by rw [hmdi]; omega
  simp [run, hlt, hcfg, hmdi, hlen]

/-- Witness for C9: length 1 with the index left to default (so the
effective index is 0), one calibrated strategy; the run ends in the
`ZeroDivisionError` with the calibration result recorded and the
output file untouched. -/
theorem status_print_division_by_zero_witness :
    run (fun _ k => (k : ℚ)) 10 (fun _ _ => 0) (fun _ _ _ => 'a') (fun _ _ _ => 'a')
      (fun _ _ => []) (fun _ _ => 0)
      { length := 1, max_difference_index := none, num_values := 5, warmups := 10,
        loops := none, min_time := 1, functions := ["andeq"] }
      = { loops_config := [("andeq", 1)], lines := [],
          outcome := some .zeroDivisionError } :=
  status_print_division_by_zero (fun _ k => (k : ℚ)) 10 (fun _ _ => 0)
    (fun _ _ _ => 'a') (fun _ _ _ => 'a') (fun _ _ => []) (fun _ _ => 0)
    { length := 1, max_difference_index := none, num_values := 5, warmups := 10,
      loops := none, min_time := 1, functions := ["andeq"] }
    [("andeq", 1)] (by decide) (by decide) rfl

/-- Counterexample to C4 as stated: with a fixed `--loops` count, an
invocation whose only strategy name is unknown still opens the output
file and writes the header row before the `KeyError` is raised in the
benchmarking loop, so the failure is not "before any output-file
content is written". -/
theorem unknown_name_with_fixed_loops_writes_header :
    (run (fun _ k => (k : ℚ)) 1 (fun _ _ => 0) (fun _ _ _ => 'a') (fun _ _ _ => 'a')
      (fun _ _ => []) (fun _ _ => 0)
      { length := 16, max_difference_index := none, num_values := 1, warmups := 10,
        loops := some 1, min_time := 1, functions := ["zzz"] }).outcome
      = some (.keyError "zzz") ∧
    (run (fun _ k => (k : ℚ)) 1 (fun _ _ => 0) (fun _ _ _ => 'a') (fun _ _ _ => 'a')
      (fun _ _ => []) (fun _ _ => 0)
      { length := 16, max_difference_index := none, num_values := 1, warmups := 10,
        loops := some 1, min_time := 1, functions := ["zzz"] }).lines
      = [CsvRecord.headerRec csv_header] := by
  constructor <;> decide

/-- C4 amended: an unknown strategy name always makes the run fail with
a `KeyError`; when no fixed `--loops` count is supplied the failure
happens while building `loops_config`, before any output-file content
is written, but when `--loops` is supplied the unknown name is only
detected in the benchmarking loop, after the header row has been
written. -/
theorem unknown_strategy_failure (measure_cal : String → Nat → ℚ) (cal_fuel : Nat)
    (d_of : String → Nat → Int) (aC sC : String → Nat → Nat → Char)
    (repl : String → Nat → List Char) (raw : String → Nat → ℚ) (args : Args) :
    (args.loops = none →
      (∃ b ∈ args.functions, b ∉ function_names) →
      (∀ n ∈ args.functions, n ∈ function_names →
        (calibrate (measure_cal n) args.min_time cal_fuel 1).isSome) →
      ¬ args.length ≤ effective_mdi args →
      ∃ bad, bad ∉ function_names ∧
        run measure_cal cal_fuel d_of aC sC repl raw args
          = { loops_config := [], lines := [], outcome := some (.keyError bad) }) ∧
    (∀ (l : Int) (name : String), args.loops = some l → args.functions = [name] →
      name ∉ function_names → ¬ args.length ≤ effective_mdi args →
      effective_mdi args ≠ 0 →
      run measure_cal cal_fuel d_of aC sC repl raw args
        = { loops_config := [(name, l)], lines := [CsvRecord.headerRec csv_header],
            outcome := some (.keyError name) }) := by
  constructor
  · intro hnone hunk hcal hchk
    obtain ⟨bad, hbad, hbuild⟩ := build_unknown_fails measure_cal cal_fuel args.min_time
      args.functions hunk hcal
    refine ⟨bad, hbad, ?_⟩
    simp [run, hchk, hnone, hbuild]
  · intro l name hl hfs hname hchk hnz
    have hsort : sorted_names [name] = [name] := rfl
    have hbuild := build_loops_config_fixed measure_cal cal_fuel l args.min_time [name]
    simp only [List.map] at hbuild
    simp [run, hchk, hl, hfs, hbuild, hnz, hsort, bench_all, hname]

/-- Witness for C4 (amended): an unknown name without `--loops` fails
with nothing written; an unknown name with `--loops` fails after the
header row. -/
theorem unknown_strategy_failure_witness :
    (run (fun _ k => (k : ℚ)) 10 (fun _ _ => 0) (fun _ _ _ => 'a') (fun _ _ _ => 'a')
      (fun _ _ => []) (fun _ _ => 0)
      { length := 16, max_difference_index := none, num_values := 1, warmups := 10,
        loops := none, min_time := 1, functions := ["zzz"] }).lines = [] ∧
    (run (fun _ k => (k : ℚ)) 10 (fun _ _ => 0) (fun _ _ _ => 'a') (fun _ _ _ => 'a')
      (fun _ _ => []) (fun _ _ => 0)
      { length := 16, max_difference_index := none, num_values := 1, warmups := 10,
        loops := none, min_time := 1, functions := ["zzz"] }).outcome ≠ none ∧
    run (fun _ k => (k : ℚ)) 10 (fun _ _ => 0) (fun _ _ _ => 'a') (fun _ _ _ => 'a')
      (fun _ _ => []) (fun _ _ => 0)
      { length := 16, max_difference_index := none, num_values := 1, warmups := 10,
        loops := some 2, min_time := 1, functions := ["yyy"] }
      = { loops_config := [("yyy", 2)], lines := [CsvRecord.headerRec csv_header],
          outcome := some (.keyError "yyy") } := by
  obtain ⟨bad, -, hrun⟩ :=
    (unknown_strategy_failure (fun _ k => (k : ℚ)) 10 (fun _ _ => 0)
      (fun _ _ _ => 'a') (fun _ _ _ => 'a') (fun _ _ => []) (fun _ _ => 0)
      { length := 16, max_difference_index := none, num_values := 1, warmups := 10,
        loops := none, min_time := 1, functions := ["zzz"] }).1 rfl
      ⟨"zzz", by decide, by decide⟩
      (fun n hn hnf => absurd (List.mem_singleton.mp hn ▸ hnf) (by decide))
      (by decide)
  refine ⟨by rw [hrun], by rw [hrun]; simp, ?_⟩
  exact (unknown_strategy_failure (fun _ k => (k : ℚ)) 10 (fun _ _ => 0)
    (fun _ _ _ => 'a') (fun _ _ _ => 'a') (fun _ _ => []) (fun _ _ => 0)
    { length := 16, max_difference_index := none, num_values := 1, warmups := 10,
      loops := some 2, min_time := 1, functions := ["yyy"] }).2 2 "yyy" rfl rfl
    (by decide) (by decide) (by decide)

/-! ### A successful benchmarking run -/

lemma lookup_mem_pairs :
    ∀ (cfg : List (String × Int)) (name : String) (v : Int),
      List.lookup name cfg = some v → (name, v) ∈ cfg := by
  intro cfg
  induction cfg with
  | nil => intro name v h; simp [List.lookup] at h
  | cons p rest ih =>
      obtain ⟨k, w⟩ := p
      intro name v h
      rw [List.lookup] at h
      by_cases he : name = k
      · rw [show (name == k) = true from beq_iff_eq.mpr he] at h
        simp only at h
        rw [Option.some_inj] at h
        subst h
        subst he
        exact List.mem_cons_self _ _
      · rw [show (name == k) = false from beq_eq_false_iff_ne.mpr he] at h
        simp only at h
        exact List.mem_cons_of_mem _ (ih name v h)

lemma lookup_map_const (l : Int) :
    ∀ (names : List String) (name : String), name ∈ names →
      List.lookup name (names.map fun n => (n, l)) = some l := by
  intro names
  induction names with
  | nil => intro name h; simp at h
  | cons head rest ih =>
      intro name h
      rcases List.mem_cons.mp h with rfl | hr
      · simp [List.lookup]
      · by_cases he : name = head
        · subst he; simp [List.lookup]
        · simpa [List.lookup, beq_eq_false_iff_ne.mpr he] using ih name hr

lemma run_sample_ok (name : String) (length mdi d : Int) (aC sC : Nat → Char)
    (repl : List Char) (raw : ℚ) (loops : Int)
    (_hd0 : 0 ≤ d) (hdm : d ≤ mdi) (hml : mdi < length) (hmpos : 0 < mdi)
    (hl : loops ≠ 0)
    (hgen : (generate_pair length.toNat d.toNat aC sC repl).isSome) :
    run_sample name length mdi d aC sC repl raw loops
      = .ok { function := name, password_length := length, first_difference := d,
              time := raw / ((loops : Int) : ℚ) } := by
  have hnneg : ¬ mdi < 0 := by omega
  have hdl : d.toNat < length.toNat := by omega
  obtain ⟨⟨a, b⟩, hab⟩ := Option.isSome_iff_exists.mp hgen
  obtain ⟨haL, hbL, hne, htake, hgetD, -⟩ :=
    generate_pair_spec length.toNat d.toNat hdl aC sC repl a b hab
  have hcond : ((a.length == b.length) && !(a == b)
      && (a.take d.toNat == b.take d.toNat)
      && !(a.getD d.toNat 'a' == b.getD d.toNat 'a')) = true := by
    simp only [Bool.and_eq_true, Bool.not_eq_true', beq_iff_eq, beq_eq_false_iff_ne]
    exact ⟨⟨⟨by rw [haL, hbL], hne⟩, htake⟩, hgetD⟩
  rw [run_sample, if_neg hnneg, if_pos hdl, hab]
  simp only []
  rw [if_pos hcond, if_neg hl]

lemma bench_samples_ok (name : String) (length mdi : Int) (d_of : Nat → Int)
    (aC sC : Nat → Nat → Char) (repl : Nat → List Char) (raw : Nat → ℚ) (loops : Int)
    (hml : mdi < length) (hmpos : 0 < mdi) (hl : loops ≠ 0)
    (hd : ∀ i, 0 ≤ d_of i ∧ d_of i ≤ mdi)
    (hgen : ∀ i, (generate_pair length.toNat (d_of i).toNat (aC i) (sC i)
      (repl i)).isSome) :
    ∀ (cnt i : Nat),
      bench_samples name length mdi d_of aC sC repl raw loops i cnt
        = ((List.range cnt).map fun k =>
            ({ function := name, password_length := length,
               first_difference := d_of (i + k),
               time := raw (i + k) / ((loops : Int) : ℚ) } : Row),
           none) := by
  intro cnt
  induction cnt with
  | zero => intro i; simp [bench_samples]
  | succ cnt ih =>
      intro i
      rw [bench_samples, run_sample_ok name length mdi (d_of i) (aC i) (sC i) (repl i)
        (raw i) loops (hd i).1 (hd i).2 hml hmpos hl (hgen i)]
      simp only []
      rw [ih (i + 1)]
      rw [List.range_succ_eq_map, List.map_cons, List.map_map]
      refine congrArg (fun rows => (_ :: rows, none)) ?_
      apply List.map_congr_left
      intro k _
      have harith : i + 1 + k = i + (k + 1) := by omega
      simp [Function.comp, harith]

lemma bench_all_ok (length mdi : Int) (d_of : String → Nat → Int)
    (aC sC : String → Nat → Nat → Char) (repl : String → Nat → List Char)
    (raw : String → Nat → ℚ) (cfg : List (String × Int)) (num : Nat)
    (hml : mdi < length) (hmpos : 0 < mdi)
    (hd : ∀ name i, 0 ≤ d_of name i ∧ d_of name i ≤ mdi)
    (hgen : ∀ name i, (generate_pair length.toNat (d_of name i).toNat (aC name i)
      (sC name i) (repl name i)).isSome) :
    ∀ names : List String,
      (∀ name ∈ names, name ∈ function_names) →
      (∀ name ∈ names, ∃ l, List.lookup name cfg = some l ∧ l ≠ 0) →
      bench_all length mdi d_of aC sC repl raw cfg num names
        = (names.flatMap fun name => (List.range num).map fun k =>
            ({ function := name, password_length := length,
               first_difference := d_of name (1 + k),
               time := raw name (1 + k)
                 / (((List.lookup name cfg).getD 1 : Int) : ℚ) } : Row),
           none) := by
  intro names
  induction names with
  | nil => intro _ _; simp [bench_all]
  | cons head rest ih =>
      intro hkn hlk
      obtain ⟨l, hl, hlnz⟩ := hlk head (List.mem_cons_self head rest)
      rw [bench_all, if_pos (hkn head (List.mem_cons_self head rest)), hl]
      simp only []
      rw [bench_samples_ok head length mdi (d_of head) (aC head) (sC head) (repl head)
        (raw head) l hml hmpos hlnz (hd head) (hgen head) num 1]
      simp only []
      rw [ih (fun n hn => hkn n (List.mem_cons_of_mem _ hn))
        (fun n hn => hlk n (List.mem_cons_of_mem _ hn))]
      simp [hl]

/-- C7: a completed run writes exactly the header row (with cells
`function`, `password length`, `first difference`, `time`) followed by,
for each requested strategy in sorted name order, exactly `num_values`
data rows in generation order, each carrying the strategy name, the
configured length, the sample's first-difference index, and the
measured duration divided by the strategy's configured loop count. -/
theorem benchmark_output (measure_cal : String → Nat → ℚ) (cal_fuel : Nat)
    (d_of : String → Nat → Int) (aC sC : String → Nat → Nat → Char)
    (repl : String → Nat → List Char) (raw : String → Nat → ℚ) (args : Args)
    (cfg : List (String × Int))
    (hcfg : build_loops_config measure_cal cal_fuel args.loops args.min_time
      args.functions = .ok cfg)
    (hchk : ¬ args.length ≤ effective_mdi args)
    (hpos : 0 < effective_mdi args)
    (hknown : ∀ name ∈ args.functions, name ∈ function_names)
    (hd_range : ∀ name i, 0 ≤ d_of name i ∧ d_of name i ≤ effective_mdi args)
    (hgen : ∀ name i, (generate_pair args.length.toNat (d_of name i).toNat
      (aC name i) (sC name i) (repl name i)).isSome)
    (hloops : ∀ p ∈ cfg, p.2 ≠ 0) :
    run measure_cal cal_fuel d_of aC sC repl raw args
      = { loops_config := cfg,
          lines := CsvRecord.headerRec csv_header ::
            ((sorted_names args.functions).flatMap fun name =>
              (List.range args.num_values.toNat).map fun k =>
                CsvRecord.dataRec
                  { function := name, password_length := args.length,
                    first_difference := d_of name (1 + k),
                    time := raw name (1 + k)
                      / (((List.lookup name cfg).getD 1 : Int) : ℚ) }),
          outcome := none } := by
  have hlk : ∀ name ∈ args.functions, ∃ l, List.lookup name cfg = some l ∧ l ≠ 0 := by
    intro name hn
    cases hargs : args.loops with
    | none =>
        rw [hargs] at hcfg
        obtain ⟨n, hn1, -⟩ := build_loops_config_calibrated measure_cal cal_fuel
          args.min_time args.functions cfg hcfg name hn
        exact ⟨(n : Int), hn1, hloops _ (lookup_mem_pairs cfg name _ hn1)⟩
    | some l =>
        rw [hargs] at hcfg
        rw [build_loops_config_fixed measure_cal cal_fuel l args.min_time
          args.functions] at hcfg
        rw [Except.ok.injEq] at hcfg
        subst hcfg
        have hl := lookup_map_const l args.functions name hn
        exact ⟨l, hl, hloops _ (lookup_mem_pairs _ name _ hl)⟩
  have hmem_sorted : ∀ name ∈ sorted_names args.functions, name ∈ args.functions := by
    intro name hn
    exact (List.perm_insertionSort (fun a b => strLe a b = true) args.functions).mem_iff.mp hn
  have hnz : effective_mdi args ≠ 0 := by omega
  simp only [run, if_neg hchk, hcfg]
  rw [if_neg hnz]
  rw [bench_all_ok args.length (effective_mdi args) d_of aC sC repl raw cfg
    args.num_values.toNat (by omega) hpos hd_range hgen (sorted_names args.functions)
    (fun n hn => hknown n (hmem_sorted n hn)) (fun n hn => hlk n (hmem_sorted n hn))]
  simp only [List.map_flatMap, List.map_map]
  rfl

/-- Witness for C7: a single strategy, a single sample, fixed loop
count 1; the run completes and the file is exactly the header followed
by the one data row. -/
theorem benchmark_output_witness :
    run (fun _ k => (k : ℚ)) 10 (fun _ _ => 0) (fun _ _ _ => 'a') (fun _ _ _ => 'b')
      (fun _ _ => []) (fun _ _ => 7)
      { length := 2, max_difference_index := none, num_values := 1, warmups := 10,
        loops := some 1, min_time := 1, functions := ["andeq"] }
      = { loops_config := [("andeq", 1)],
          lines := [CsvRecord.headerRec csv_header,
            CsvRecord.dataRec
              { function := "andeq", password_length := 2,
                first_difference := 0, time := 7 / ((1 : Int) : ℚ) }],
          outcome := none } := by
  have h := benchmark_output (fun _ k => (k : ℚ)) 10 (fun _ _ => 0)
    (fun _ _ _ => 'a') (fun _ _ _ => 'b') (fun _ _ => []) (fun _ _ => 7)
    { length := 2, max_difference_index := none, num_values := 1, warmups := 10,
      loops := some 1, min_time := 1, functions := ["andeq"] }
    [("andeq", 1)] rfl (by decide) (by decide) (by decide)
    (fun _ _ => ⟨le_refl 0, by show (0 : Int) ≤ 1; decide⟩)
    (fun _ _ => by
      show (generate_pair 2 0 (fun _ => 'a') (fun _ => 'b') []).isSome = true
      decide)
    (by decide)
  exact h

/-! ### Comparison-strategy claims -/

/-- C1 (code bug): the claim requires `hash_compare` to return `true`
on identical strings, but the source compares the two `md5(...)` hash
objects themselves instead of their digests; hash objects have no
value equality, so the comparison is always `False` and `hash_compare`
returns `False` even on identical inputs, as evaluated here at the
failing input `("a", "a")`. -/
theorem hash_compare_false_on_equal_strings :
    hash_compare ['a'] ['a'] = false ∧ (['a'] : List Char) = ['a'] :=
  ⟨rfl, rfl⟩

/-- C6: on inputs of unequal length every registered strategy in the
claim's list returns `false` (they are total functions, so none
throws): `equals_operator` by value inequality, `andeq` and
`xor_bytes` by their explicit length guard, `hash_compare` because it
returns `false` on everything, and `salted_hash_compare` because its
final `and a == b` conjunct is `false`. -/
theorem unequal_length_rejected (hmac : List Nat → List Char → List Nat)
    (salt : List Nat) (a b : List Char) (h : a.length ≠ b.length) :
    equals_operator a b = false ∧ andeq a b = false ∧ xor_bytes a b = false ∧
    hash_compare a b = false ∧ salted_hash_compare hmac salt a b = false := by
  have hne : a ≠ b := fun hab => h (congrArg List.length hab)
  refine ⟨?_, ?_, ?_, ?_, ?_⟩
  · simp [equals_operator, beq_eq_false_iff_ne.mpr hne]
  · simp [andeq, h]
  · simp [xor_bytes, h]
  · simp [hash_compare, pyObjEq]
  · simp [salted_hash_compare, beq_eq_false_iff_ne.mpr hne]

/-- Witness for C6 at the concrete unequal-length pair `("a", "")`
with the identity-style digest as the `hmac` instance. -/
theorem unequal_length_rejected_witness :
    equals_operator ['a'] [] = false ∧ andeq ['a'] [] = false ∧
    xor_bytes ['a'] [] = false ∧ hash_compare ['a'] [] = false ∧
    salted_hash_compare (fun _ m => m.map Char.toNat) [0] ['a'] [] = false :=
  unequal_length_rejected (fun _ m => m.map Char.toNat) [0] ['a'] [] (by decide)

/-- C10: for any digest function, the result of `salted_hash_compare`
is the same under any two salts, and it equals the value equality of
the two strings: when `a = b` both digests coincide (the digest is a
function of salt and message), and when `a ≠ b` the trailing
`and a == b` conjunct forces `false` regardless of the digests. -/
theorem salted_hash_compare_salt_invariant (hmac : List Nat → List Char → List Nat)
    (salt1 salt2 : List Nat) (a b : List Char) :
    salted_hash_compare hmac salt1 a b = salted_hash_compare hmac salt2 a b ∧
    (salted_hash_compare hmac salt1 a b = true ↔ a = b) := by
  by_cases hab : a = b
  · subst hab
    simp [salted_hash_compare]
  · simp [salted_hash_compare, beq_eq_false_iff_ne.mpr hab, hab]

/-! ### Visualizer claims -/

/-- Counterexample to C8 as stated: with the 20 distinct
first-difference values 0..19 the divisor is `max(1, 20 // 8) = 2` and
every even value keeps its label, so 10 labels are displayed, more
than the configured limit of 8. -/
theorem tick_labels_exceed_limit :
    8 < ((plots_main ((List.range 20).map Int.ofNat) []).x_ticks.filterMap id).length := by
  decide

/-- C8 amended: the visualizer multiplies every time value by
1,000,000, and over the sorted distinct first-difference values it
shows the label of a value `v` exactly when `v` is divisible by
`max(1, n / 8)` (`n` the number of distinct values), suppressing the
rest; this value-based rule bounds neither the number of displayed
labels by 8 nor makes them evenly spaced by index. -/
theorem plot_scaling_and_tick_rule (first_diffs : List Int) (times : List ℚ) :
    (plots_main first_diffs times).times_us = times.map (fun t => t * 1000000) ∧
    ∀ v : Int, some v ∈ (plots_main first_diffs times).x_ticks ↔
      v ∈ first_diffs ∧
      (((max 1 ((List.insertionSort (fun a b : Int => a ≤ b)
        first_diffs.dedup).length / 8) : Nat) : Int)) ∣ v := by
  refine ⟨rfl, fun v => ?_⟩
  simp only [plots_main, List.mem_map]
  constructor
  · rintro ⟨t, ht, hf⟩
    split at hf
    · next hmod =>
        rw [Option.some_inj] at hf
        subst hf
        refine ⟨?_, ?_⟩
        · exact List.mem_dedup.mp
            ((List.perm_insertionSort (fun a b : Int => a ≤ b) first_diffs.dedup).mem_iff.mp ht)
        · exact Int.dvd_of_emod_eq_zero hmod
    · exact absurd hf (by simp)
  · rintro ⟨hv, hdvd⟩
    refine ⟨v, ?_, ?_⟩
    · exact (List.perm_insertionSort (fun a b : Int => a ≤ b) first_diffs.dedup).mem_iff.mpr
        (List.mem_dedup.mpr hv)
    · rw [if_pos (Int.emod_eq_zero_of_dvd hdvd)]

/-! ### Functional correctness of the unaffected strategies -/

lemma foldl_and_range (p : Nat → Bool) :
    ∀ n : Nat, ((List.range n).foldl (fun r i => r && p i) true = true ↔
      ∀ i, i < n → p i = true) := by
  intro n
  induction n with
  | zero => simp
  | succ n ih =>
      rw [List.range_succ, List.foldl_append]
      simp only [List.foldl_cons, List.foldl_nil]
      constructor
      · intro h i hi
        rcases Bool.and_eq_true .. ▸ h with ⟨h1, h2⟩
        rcases Nat.lt_succ_iff_lt_or_eq.mp hi with hlt | rfl
        · exact ih.mp h1 i hlt
        · exact h2
      · intro h
        rw [ih.mpr (fun i hi => h i (Nat.lt_succ_of_lt hi)), Bool.true_and]
        exact h n (Nat.lt_succ_self n)

lemma lor_eq_zero_iff (a b : Nat) : a ||| b = 0 ↔ a = 0 ∧ b = 0 := by
  constructor
  · intro h
    have key : ∀ i, Nat.testBit a i = false ∧ Nat.testBit b i = false := by
      intro i
      have h2 := congrArg (fun n => Nat.testBit n i) h
      simp only [Nat.testBit_lor, Nat.zero_testBit, Bool.or_eq_false_iff] at h2
      exact h2
    exact ⟨Nat.zero_of_testBit_eq_false (fun i => (key i).1),
      Nat.zero_of_testBit_eq_false (fun i => (key i).2)⟩
  · rintro ⟨rfl, rfl⟩; rfl

lemma foldl_or_range (f : Nat → Nat) :
    ∀ n : Nat, ((List.range n).foldl (fun r i => r ||| f i) 0 = 0 ↔
      ∀ i, i < n → f i = 0) := by
  intro n
  induction n with
  | zero => simp
  | succ n ih =>
      rw [List.range_succ, List.foldl_append]
      simp only [List.foldl_cons, List.foldl_nil]
      rw [lor_eq_zero_iff]
      constructor
      · rintro ⟨h1, h2⟩ i hi
        rcases Nat.lt_succ_iff_lt_or_eq.mp hi with hlt | rfl
        · exact ih.mp h1 i hlt
        · exact h2
      · intro h
        exact ⟨ih.mpr (fun i hi => h i (Nat.lt_succ_of_lt hi)), h n (Nat.lt_succ_self n)⟩

lemma eq_iff_getD_eq (a b : List Char) (hlen : a.length = b.length) :
    a = b ↔ ∀ i, i < a.length → a.getD i 'a' = b.getD i 'a' := by
  constructor
  · intro h; subst h; exact fun _ _ => rfl
  · intro h
    apply List.ext_getElem hlen
    intro i h1 h2
    have := h i h1
    rwa [getD_eq_getElem _ _ h1, getD_eq_getElem _ _ h2] at this

/-- On equal-length inputs, `equals_operator` decides character-wise
equality (the part of the spec's strategy-correctness property that
the code does satisfy). -/
theorem equals_operator_iff (a b : List Char) :
    equals_operator a b = true ↔ a = b := by
  simp [equals_operator]

/-- On equal-length inputs, `andeq` decides character-wise equality:
the accumulated AND is true exactly when every position matches. -/
theorem andeq_iff (a b : List Char) (hlen : a.length = b.length) :
    andeq a b = true ↔ a = b := by
  rw [andeq, if_neg (by omega)]
  rw [foldl_and_range (fun i => a.getD i 'a' == b.getD i 'a') a.length]
  rw [eq_iff_getD_eq a b hlen]
  constructor
  · intro h i hi
    exact beq_iff_eq.mp (h i hi)
  · intro h i hi
    exact beq_iff_eq.mpr (h i hi)

/-- On equal-length inputs, `xor_bytes` decides character-wise
equality: the OR of the XORs of the code points is zero exactly when
every position matches. -/
theorem xor_bytes_iff (a b : List Char) (hlen : a.length = b.length) :
    xor_bytes a b = true ↔ a = b := by
  rw [xor_bytes, if_neg (by omega)]
  rw [show (((List.range a.length).foldl
      (fun result i => result ||| ((a.getD i 'a').toNat ^^^ (b.getD i 'a').toNat)) 0) == 0)
      = true ↔ _ from beq_iff_eq]
  rw [foldl_or_range (fun i => (a.getD i 'a').toNat ^^^ (b.getD i 'a').toNat) a.length]
  rw [eq_iff_getD_eq a b hlen]
  constructor
  · intro h i hi
    have hx := h i hi
    rw [Nat.xor_eq_zero] at hx
    apply Char.eq_of_val_eq
    apply UInt32.eq_of_toBitVec_eq
    exact BitVec.toNat_injective hx
  · intro h i hi
    rw [h i hi, Nat.xor_self]
